import Mathlib

/-!
Shallow embedding of `src/components/modules/dimmer.c` (phase-cut dimmer module).

Machine integers are modelled as `Int`. The C `int` fields are 32-bit; where an
`int64_t` value is stored into an `int` field (`dims[i].level = p * 2`) we model
the implementation-defined wrap with `toInt32`. The middle branch of
`dimmer_set_level` computes `(int)(((double)level) / 1000.0 * ((double)p))` in
IEEE-754 binary64 arithmetic; it is modelled bit-exactly by `dblTrunc`:
`level / 1000` is rounded to 53 significant bits (round to nearest, ties to
even; the value is normal since `1 ≤ level ≤ 999`, and `(double)level` is
exact), the product with `p` is rounded to 53 bits again (`(double)p` is exact
for `|p| < 2 ^ 53`, which holds in every reachable state), and the result is
truncated toward zero, as the `(int)` cast does for in-range values.
-/

/-- One controlled output, `dim_t` in the C source: output pin, edge mode
(`0` = leading edge, `1` = trailing edge), switch delay in microseconds
(field `level`), and whether the output has already been flipped in the
current half-cycle. -/
structure dim_t where
  pin : Int
  mode : Int
  level : Int
  switched : Bool
deriving Repr, DecidableEq

/-- `DIM_MODE_LEADING_EDGE` constant from the C source. -/
def DIM_MODE_LEADING_EDGE : Int := 0

/-- `DIM_MODE_TRAILING_EDGE` constant from the C source. -/
def DIM_MODE_TRAILING_EDGE : Int := 1

/-- `MAINS_FREQUENCY` constant from the C source (Hz). -/
def MAINS_FREQUENCY : Int := 50

/-- The debounce threshold used in `zc_isr`:
`1000 * 1000 / MAINS_FREQUENCY / 4` microseconds (= 5000). -/
def debounceThreshold : Int := 1000 * 1000 / MAINS_FREQUENCY / 4

/-- Wrap of an `int64_t` value stored into a 32-bit C `int`
(two's-complement truncation, the behavior of the target platform). -/
def toInt32 (x : Int) : Int := (x + 2 ^ 31) % 2 ^ 32 - 2 ^ 31

/-- The module's mutable state: `zcTimestamp` (time of last accepted zero
crossing, µs), `p` (estimated half-period, µs, 0 = no mains yet), `zCount`
(count of rising edges seen by `zc_isr`), and the channel registry `dims`
(C: `dims` array of `dimCount` entries, in order). -/
structure DimmerState where
  zcTimestamp : Int
  p : Int
  zCount : Int
  dims : List dim_t
deriving Repr, DecidableEq

/-- `micros()` from the C source: converts the accumulated CPU cycle count to
microseconds, `total_cycles * 1000000 / clock_freq`. Establishes that all
timestamps (hence `p`) are in microseconds. -/
def micros (total_cycles clock_freq : Int) : Int :=
  total_cycles * 1000000 / clock_freq

/-- Per-channel body of `timer_isr`: if the channel has not switched yet and
`elapsed > level`, drive the pin to `1 - mode` (the "on" level) and mark it
switched. Returns the updated channel and the GPIO writes (pin, value)
performed. -/
def timer_isr_ch (elapsed : Int) (d : dim_t) : dim_t × List (Int × Int) :=
  if d.switched = false ∧ elapsed > d.level then
    ({ d with switched := true }, [(d.pin, 1 - d.mode)])
  else
    (d, [])

/-- `timer_isr(now)` from the C source: for every channel, run the per-channel
scheduler body with `elapsed = now - zcTimestamp`. Returns the updated state and
the list of GPIO writes performed. -/
def timer_isr (now : Int) (s : DimmerState) : DimmerState × List (Int × Int) :=
  let elapsed := now - s.zcTimestamp
  let rs := s.dims.map (timer_isr_ch elapsed)
  ({ s with dims := rs.map Prod.fst }, (rs.map Prod.snd).flatten)

/-- Per-channel body of the accepted branch of `zc_isr`: a channel with
`level == 0` is driven to `1 - mode` (the "on" level) and marked switched;
any other channel is driven to `mode` (the edge-mode "off" level) and marked
not switched. Returns the updated channel and the GPIO write performed. -/
def zc_isr_ch (d : dim_t) : dim_t × (Int × Int) :=
  if d.level = 0 then
    ({ d with switched := true }, (d.pin, 1 - d.mode))
  else
    ({ d with switched := false }, (d.pin, d.mode))

/-- `zc_isr(now)` from the C source: called at every rising edge of the sense
pin. Always increments `zCount`. If `elapsed = now - zcTimestamp` exceeds the
debounce threshold, updates every channel via `zc_isr_ch`, sets
`zcTimestamp := now` and `p := elapsed`; otherwise the edge is debounced and
nothing else changes. Returns the updated state and the GPIO writes
performed. -/
def zc_isr (now : Int) (s : DimmerState) : DimmerState × List (Int × Int) :=
  let elapsed := now - s.zcTimestamp
  if elapsed > debounceThreshold then
    let rs := s.dims.map zc_isr_ch
    ({ zcTimestamp := now, p := elapsed, zCount := s.zCount + 1,
       dims := rs.map Prod.fst }, rs.map Prod.snd)
  else
    ({ s with zCount := s.zCount + 1 }, [])

/-- One iteration of the control loop body in `stuff` (after the quiesce
check): read `now`, read the sense pin; on a rising edge (`old = 0`, `new = 1`)
run `zc_isr`, then always run `timer_isr`. Returns the updated state and the
GPIO writes performed. -/
def stuff_iter (zcPinOld zcPinNew now : Int) (s : DimmerState) :
    DimmerState × List (Int × Int) :=
  let zr := if zcPinOld = 0 ∧ zcPinNew = 1 then zc_isr now s else (s, [])
  let tr := timer_isr now zr.1
  (tr.1, zr.2 ++ tr.2)

/-- `dimmer_add(pin, mode)` from the C source, acting on the registry list with
the current half-period estimate `p`: if some channel already has this pin, the
call is a no-op; otherwise a new channel is appended with
`level = p * 2` (stored into a C `int`) for leading edge, `0` for trailing
edge, and `switched = false`. -/
def dimmer_add (pin mode p : Int) (dims : List dim_t) : List dim_t :=
  if dims.any (fun d => d.pin = pin) then
    dims
  else
    dims ++ [{ pin := pin, mode := mode,
               level := if mode = DIM_MODE_LEADING_EDGE then toInt32 (p * 2) else 0,
               switched := false }]

/-- A sequence of `dimmer_add` calls applied in order; each call carries its
pin, its edge mode and the half-period estimate at call time. -/
def addAll : List (Int × Int × Int) → List dim_t → List dim_t
  | [], ds => ds
  | a :: rest, ds => addAll rest (dimmer_add a.1 a.2.1 a.2.2 ds)

/-- `dimmer_remove(pin)` from the C source, acting on the registry list:
removes the first channel whose pin matches (shifting the rest down, which
preserves their relative order); returns `none` when no channel matches, in
which case the C code raises the "pin is not dimmed" Lua error and the
registry is left untouched. -/
def dimmer_remove (pin : Int) : List dim_t → Option (List dim_t)
  | [] => none
  | d :: ds =>
    if d.pin = pin then some ds
    else (dimmer_remove pin ds).map (fun ds' => d :: ds')

/-- Round to nearest, ties to even, of the rational `a / b` (for `b > 0`):
the rounding IEEE-754 binary64 arithmetic applies to every inexact result. -/
def rne (a b : Nat) : Nat :=
  if 2 * (a % b) < b then a / b
  else if b < 2 * (a % b) then a / b + 1
  else if a / b % 2 = 0 then a / b else a / b + 1

/-- Fuel-bounded floor of `log2`, structural so that the kernel can evaluate
it; `ilog2Aux fuel n` is the exact floor of `log2 n` whenever `n < 2 ^ fuel`. -/
def ilog2Aux : Nat → Nat → Nat
  | 0, _ => 0
  | fuel + 1, n => if 2 ≤ n then ilog2Aux fuel (n / 2) + 1 else 0

/-- Floor of `log2 n`, exact for `1 ≤ n < 2 ^ 128` (every quantity arising in
`dblTrunc` is far below `2 ^ 128`). -/
def ilog2 (n : Nat) : Nat := ilog2Aux 128 n

/-- Binade of `level / 1000` for `1 ≤ level ≤ 999`: `flExp level = e` means
`2 ^ (-e) ≤ level / 1000 < 2 ^ (1 - e)` (the value lies in `[2^-10, 1)`, so
`e ∈ [1, 10]`). -/
def flExp (level : Nat) : Nat := 10 - ilog2 (level * 1024 / 1000)

/-- The 53-bit significand of the binary64 value of `level / 1000`:
`fl(level / 1000) = flM1 level / 2 ^ (52 + flExp level)`, rounded to nearest
with ties to even, exactly as `((double)level) / 1000.0` computes it. -/
def flM1 (level : Nat) : Nat := rne (level * 2 ^ (52 + flExp level)) 1000

/-- Number of low bits rounded away when the exact product
`flM1 level * p` is rounded back to 53 significant bits (0 when the product
already fits). -/
def flK (level p : Nat) : Nat := ilog2 (flM1 level * p) - 52

/-- The 53-bit significand of the binary64 product
`fl(fl(level / 1000) * p)`, rounded to nearest with ties to even. -/
def flM2 (level p : Nat) : Nat := rne (flM1 level * p) (2 ^ flK level p)

/-- The C expression `(int)(((double)level) / 1000.0 * ((double)p))` from
`dimmer_set_level`, computed exactly over the integers for `1 ≤ level ≤ 999`
and `0 ≤ p < 2 ^ 53` (so `(double)level` and `(double)p` are exact):
divide, round to binary64, multiply, round to binary64, truncate. -/
def dblTrunc (level p : Nat) : Nat :=
  flM2 level p * 2 ^ flK level p / 2 ^ (52 + flExp level)

/-- Per-channel body of `dimmer_set_level`: the command is complemented
(`level = 1000 - level`) for a leading-edge channel, then clamped:
`>= 1000` stores `p * 2` (into a C `int`), `<= 0` stores `0`, and otherwise
the C stores `(int)(((double)level) / 1000.0 * ((double)p))`, modelled
bit-exactly by `dblTrunc` on the magnitudes with the sign of `p` restored
(the `(int)` cast truncates toward zero; see file header). -/
def set_level_ch (c p : Int) (d : dim_t) : dim_t :=
  let level := if d.mode = DIM_MODE_LEADING_EDGE then 1000 - c else c
  if level ≥ 1000 then { d with level := toInt32 (p * 2) }
  else if level ≤ 0 then { d with level := 0 }
  else { d with level := Int.sign p * (dblTrunc level.toNat p.natAbs : Int) }

/-- `dimmer_set_level(pin, c)` from the C source, acting on the registry list
with the current half-period estimate `p`: updates the first channel whose pin
matches via `set_level_ch`; returns `none` when no channel matches, in which
case the C code raises the "unconfigured pin" Lua error. -/
def dimmer_set_level (pin c p : Int) : List dim_t → Option (List dim_t)
  | [] => none
  | d :: ds =>
    if d.pin = pin then some (set_level_ch c p d :: ds)
    else (dimmer_set_level pin c p ds).map (fun ds' => d :: ds')

/-- `dimmer_mainsFrequency()` from the C source: returns
`100000000 / (p * 2)` when `p > 0`, else `0`. A pure function of `p`. -/
def dimmer_mainsFrequency (p : Int) : Int :=
  if p > 0 then 100000000 / (p * 2) else 0

/-- Modelled from the spec: `maxTarget`, the staleness timeout the spec
describes as "110% of one worst-case half-cycle at the slowest supported mains
frequency". The C source contains no such constant (nor any `pollTarget`);
with the code's single supported frequency `MAINS_FREQUENCY = 50` Hz the
worst-case half-cycle is `1000000 / (50 * 2)` µs, so
`maxTarget = 11000` µs. Used only to exhibit inputs whose elapsed time exceeds
the spec's timeout. -/
def maxTarget : Int := 110 * (1000000 / (MAINS_FREQUENCY * 2)) / 100

/-- Run the control loop's scheduler over a list of iteration times with no
accepted crossing in between: each step is one `timer_isr` call.
Returns the final state and all GPIO writes performed, in order. -/
def runTimer : List Int → DimmerState → DimmerState × List (Int × Int)
  | [], s => (s, [])
  | n :: ns, s =>
    let r := timer_isr n s
    let r' := runTimer ns r.1
    (r'.1, r.2 ++ r'.2)

/-- Number of GPIO writes to pin `q` in a write list. -/
def writesTo (q : Int) : List (Int × Int) → Nat
  | [] => 0
  | w :: ws => (if w.1 = q then 1 else 0) + writesTo q ws

/-- Interleaving model of the quiesce protocol between a configuration-path
mutator (`dimmer_add` / `dimmer_remove`: `disable_interrupts()`, the registry
mutation, `enable_interrupts()`) and the control loop in `stuff`. `pcM` and
`pcL` are the two program counters, `mutating` is true while the mutator is
inside the registry mutation, and `overlap` records whether the loop body ever
read the registry while `mutating` was true. -/
structure QState where
  disable_loop : Bool
  disable_loop_ack : Bool
  pcM : Nat
  pcL : Nat
  mutating : Bool
  overlap : Bool
deriving Repr, DecidableEq

/-- One atomic step of the mutator thread:
pc 0: `disable_loop = true` (first line of `disable_interrupts`);
pc 1: `while (!disable_loop_ack);` (one test of the spin condition);
pc 2: the registry mutation begins (realloc / element shift);
pc 3: the registry mutation ends;
pc 4: `disable_loop = false` (first line of `enable_interrupts`);
pc 5: `disable_loop_ack = false`; pc 6: done. -/
def mutatorStep (s : QState) : QState :=
  match s.pcM with
  | 0 => { s with disable_loop := true, pcM := 1 }
  | 1 => if s.disable_loop_ack then { s with pcM := 2 } else s
  | 2 => { s with mutating := true, pcM := 3 }
  | 3 => { s with mutating := false, pcM := 4 }
  | 4 => { s with disable_loop := false, pcM := 5 }
  | 5 => { s with disable_loop_ack := false, pcM := 6 }
  | _ => s

/-- One atomic step of the control-loop thread, exactly as written in `stuff`:
pc 0: `if (disable_loop)` — when true, set `disable_loop_ack = true` and go to
the inner wait, else fall through to the iteration body;
pc 1: one test of `while (!disable_loop);` — the loop SPINS while
`disable_loop` is false and EXITS as soon as `disable_loop` is true (this is
the condition exactly as the C source has it);
pc 2: the iteration body, which reads the registry (`zc_isr` / `timer_isr`
iterate `dims` and `dimCount`), then back to the top. -/
def loopStep (s : QState) : QState :=
  match s.pcL with
  | 0 => if s.disable_loop then { s with disable_loop_ack := true, pcL := 1 }
         else { s with pcL := 2 }
  | 1 => if s.disable_loop then { s with pcL := 2 } else s
  | 2 => { s with overlap := s.overlap || s.mutating, pcL := 0 }
  | _ => s

/-- Run an interleaving: `true` schedules the mutator thread for one step,
`false` the loop thread. -/
def qRun : List Bool → QState → QState
  | [], s => s
  | b :: bs, s => qRun bs (if b then mutatorStep s else loopStep s)

/-- Initial quiesce-protocol state: both flags clear, both threads at their
entry point, no mutation in progress. -/
def qInit : QState :=
  { disable_loop := false, disable_loop_ack := false, pcM := 0, pcL := 0,
    mutating := false, overlap := false }

example : debounceThreshold = 5000 := by decide
example : maxTarget = 11000 := by decide
example : dimmer_mainsFrequency 10000 = 5000 := by decide
example : (set_level_ch 2 1999 ⟨5, 1, 0, false⟩).level = 3 := by decide
example : dblTrunc 43 10000 = 429 := by decide
example : dblTrunc 9 6000 = 53 := by decide
example : dblTrunc 43 10000 ≠ 43 * 10000 / 1000 := by decide
example : (set_level_ch 500 10000 ⟨5, 1, 0, false⟩).level = 5000 := by decide
example : (set_level_ch 500 10000 ⟨5, 0, 0, false⟩).level = 5000 := by decide
example : toInt32 20000 = 20000 := by decide

lemma toInt32_eq_self (x : Int) (h1 : -(2 ^ 31) ≤ x) (h2 : x < 2 ^ 31) :
    toInt32 x = x := by
  unfold toInt32
  rw [Int.emod_eq_of_lt (by omega) (by omega)]
  omega

lemma ediv_characterization (a b : Int) (_ha : 0 ≤ a) (hb : 0 < b) :
    b * (a / b) ≤ a ∧ a < b * (a / b + 1) := by
  have h1 := Int.ediv_add_emod a b
  have h2 := Int.emod_nonneg a (by omega : b ≠ 0)
  have h3 := Int.emod_lt_of_pos a hb
  have h4 : b * (a / b + 1) = b * (a / b) + b := by ring
  constructor <;> omega

/-- C9: the quiesce protocol does NOT prevent overlap. The control loop's
ack-wait is written `while (!disable_loop);`, which exits immediately while
`disable_loop` is still true, so the loop acknowledges the pause and then keeps
iterating. In the interleaving below the mutator sets `disable_loop`, the loop
acknowledges and falls through its (inverted) wait, the mutator sees the ack
and begins the registry mutation, and the loop body then reads the registry
while the mutation is in progress: `overlap = true`. The last two conjuncts
show the mutator is inside the mutation (`pcM = 2`, about to mutate) exactly
while the loop is at its registry-reading body (`pcL = 2`). -/
theorem c9_quiesce_overlap :
    (qRun [true, false, false, true, true, false] qInit).overlap = true ∧
    (qRun [true, false, false, true] qInit).pcM = 2 ∧
    (qRun [true, false, false, true] qInit).pcL = 2 := by decide

/-- C3 counterexample: a control-loop iteration whose elapsed time since the
last crossing is 10^9 µs (far beyond `maxTarget = 11000` µs) and which sees no
rising edge leaves `p = 20000` unchanged, and `mainsFrequency` still returns
2500, not 0. The C source contains no `maxTarget`/`pollTarget` timeout at
all. -/
theorem c3_counterexample :
    (1000000000 : Int) - 0 > maxTarget ∧
    (stuff_iter 0 0 1000000000 ⟨0, 20000, 0, []⟩).1.p = 20000 ∧
    dimmer_mainsFrequency (stuff_iter 0 0 1000000000 ⟨0, 20000, 0, []⟩).1.p = 2500 ∧
    (2500 : Int) ≠ 0 := by decide

/-- C3 amended: the control loop has no staleness timeout. Any iteration that
does not see a rising edge of the sense pin leaves `p` and `zcTimestamp`
unchanged — no matter how much time has elapsed since the last crossing — and
consequently `mainsFrequency` keeps returning the value derived from the last
accepted crossing. -/
theorem c3_no_timeout (s : DimmerState) (zcPinOld zcPinNew now : Int)
    (h : ¬(zcPinOld = 0 ∧ zcPinNew = 1)) :
    (stuff_iter zcPinOld zcPinNew now s).1.p = s.p ∧
    (stuff_iter zcPinOld zcPinNew now s).1.zcTimestamp = s.zcTimestamp ∧
    dimmer_mainsFrequency (stuff_iter zcPinOld zcPinNew now s).1.p =
      dimmer_mainsFrequency s.p := by
  simp [stuff_iter, timer_isr, h]

/-- C3 witness: the amended theorem applied at the counterexample's input. -/
theorem c3_no_timeout_witness :
    (stuff_iter 0 0 1000000000 ⟨0, 20000, 0, []⟩).1.p =
      (⟨0, 20000, 0, []⟩ : DimmerState).p ∧
    (stuff_iter 0 0 1000000000 ⟨0, 20000, 0, []⟩).1.zcTimestamp =
      (⟨0, 20000, 0, []⟩ : DimmerState).zcTimestamp ∧
    dimmer_mainsFrequency (stuff_iter 0 0 1000000000 ⟨0, 20000, 0, []⟩).1.p =
      dimmer_mainsFrequency (⟨0, 20000, 0, []⟩ : DimmerState).p :=
  c3_no_timeout ⟨0, 20000, 0, []⟩ 0 0 1000000000 (by decide)

/-- C4 counterexample: at `p = 10000` µs (a 50 Hz mains half-period, since
`p` comes from `micros()` differences), the exact frequency is 50 Hz
(`50 · (2 · 10000 µs) = 10^6 µs = 1 s`), but `dimmer_mainsFrequency` returns
5000: the returned value is in centihertz, not the nearest integer in Hz. -/
theorem c4_counterexample :
    dimmer_mainsFrequency 10000 = 5000 ∧ 50 * (2 * 10000) = 1000000 ∧
    (5000 : Int) ≠ 50 := by decide

/-- C4 amended: `dimmer_mainsFrequency` returns 0 whenever `p ≤ 0`, and for
`p > 0` returns the truncation of `10^8 / (2p)` — the mains frequency in
centihertz, rounded down (characterized here as the unique integer `k` with
`k·2p ≤ 10^8 < (k+1)·2p`). It is a pure function of `p` (no side effects). -/
theorem c4_centihertz (p : Int) :
    (p ≤ 0 → dimmer_mainsFrequency p = 0) ∧
    (0 < p →
      dimmer_mainsFrequency p * (2 * p) ≤ 100000000 ∧
      100000000 < (dimmer_mainsFrequency p + 1) * (2 * p)) := by
  constructor
  · intro hp
    have hnp : ¬ p > 0 := by omega
    simp [dimmer_mainsFrequency, hnp]
  · intro hp
    have h := ediv_characterization 100000000 (p * 2) (by omega) (by omega)
    simp only [dimmer_mainsFrequency, if_pos hp]
    constructor <;> nlinarith [h.1, h.2]

/-- C4 witness: the amended theorem applied at `p = 0` and `p = 10000`. -/
theorem c4_centihertz_witness :
    dimmer_mainsFrequency 0 = 0 ∧
    (dimmer_mainsFrequency 10000 * (2 * 10000) ≤ 100000000 ∧
     100000000 < (dimmer_mainsFrequency 10000 + 1) * (2 * 10000)) :=
  ⟨(c4_centihertz 0).1 (by decide), (c4_centihertz 10000).2 (by decide)⟩

/-- C5 counterexample: a rising edge at `now = 100` with
`zcTimestamp = 0, p = 7777` has `elapsed = 100`, below the debounce threshold
5000. The claim says the detector sets `lastCrossingTimestamp = now` and
`halfPeriod = 0`; the code instead ignores the edge entirely: `p` stays 7777
(not 0) and `zcTimestamp` stays 0 (not 100). -/
theorem c5_counterexample :
    (zc_isr 100 ⟨0, 7777, 0, []⟩).1.p = 7777 ∧ (7777 : Int) ≠ 0 ∧
    (zc_isr 100 ⟨0, 7777, 0, []⟩).1.zcTimestamp = 0 ∧ (0 : Int) ≠ 100 := by decide

/-- C5 amended: at a rising edge with `elapsed > debounceThreshold` the
detector sets `zcTimestamp := now` and `p := elapsed`; at a rising edge with
`elapsed ≤ debounceThreshold` the edge is debounced and the whole state is
unchanged except for the `zCount` edge counter (in particular `p` keeps its
previous value rather than being set to 0). -/
theorem c5_crossing_updates_or_ignores (s : DimmerState) (now : Int) :
    (now - s.zcTimestamp > debounceThreshold →
      (zc_isr now s).1.zcTimestamp = now ∧
      (zc_isr now s).1.p = now - s.zcTimestamp) ∧
    (now - s.zcTimestamp ≤ debounceThreshold →
      (zc_isr now s).1 = { s with zCount := s.zCount + 1 }) := by
  constructor
  · intro h
    simp [zc_isr, if_pos h]
  · intro h
    have hn : ¬ debounceThreshold < now - s.zcTimestamp := by omega
    simp [zc_isr, hn]

/-- C5 witness: the amended theorem applied at an accepted crossing
(`elapsed = 6000 > 5000`) and at a debounced edge (`elapsed = 100 ≤ 5000`). -/
theorem c5_crossing_witness :
    ((zc_isr 6000 ⟨0, 0, 0, []⟩).1.zcTimestamp = 6000 ∧
     (zc_isr 6000 ⟨0, 0, 0, []⟩).1.p = 6000 - 0) ∧
    (zc_isr 100 ⟨0, 7777, 3, []⟩).1 =
      { (⟨0, 7777, 3, []⟩ : DimmerState) with zCount := 3 + 1 } :=
  ⟨(c5_crossing_updates_or_ignores ⟨0, 0, 0, []⟩ 6000).1 (by decide),
   (c5_crossing_updates_or_ignores ⟨0, 7777, 3, []⟩ 100).2 (by decide)⟩

lemma dimmer_set_level_first_match (pre : List dim_t) (d : dim_t)
    (post : List dim_t) (c p : Int) (h : ∀ x ∈ pre, x.pin ≠ d.pin) :
    dimmer_set_level d.pin c p (pre ++ d :: post) =
      some (pre ++ set_level_ch c p d :: post) := by
  induction pre with
  | nil => simp [dimmer_set_level]
  | cons x xs ih =>
    have hx : x.pin ≠ d.pin := h x (by simp)
    simp only [List.cons_append, dimmer_set_level, if_neg hx, List.append_eq,
      ih (fun y hy => h y (by simp [hy]))]
    rfl

lemma ilog2Aux_window : ∀ (fuel n : Nat), 1 ≤ n → n < 2 ^ fuel →
    2 ^ ilog2Aux fuel n ≤ n ∧ n < 2 ^ (ilog2Aux fuel n + 1) := by
  intro fuel
  induction fuel with
  | zero =>
    intro n h1 h2
    simp at h2
    omega
  | succ fuel ih =>
    intro n h1 h2
    by_cases h : 2 ≤ n
    · have hn1 : 1 ≤ n / 2 := by omega
      have hn2 : n / 2 < 2 ^ fuel := by
        have he : (2:Nat) ^ (fuel + 1) = 2 * 2 ^ fuel := by ring
        omega
      obtain ⟨ha, hb⟩ := ih (n / 2) hn1 hn2
      rw [ilog2Aux, if_pos h]
      have e1 : (2:Nat) ^ (ilog2Aux fuel (n / 2) + 1) = 2 * 2 ^ ilog2Aux fuel (n / 2) := by
        ring
      have e2 : (2:Nat) ^ (ilog2Aux fuel (n / 2) + 1 + 1) =
          2 * 2 ^ (ilog2Aux fuel (n / 2) + 1) := by ring
      omega
    · rw [ilog2Aux, if_neg h]
      norm_num
      omega

lemma ilog2_window (n : Nat) (h1 : 1 ≤ n) (h2 : n < 2 ^ 128) :
    2 ^ ilog2 n ≤ n ∧ n < 2 ^ (ilog2 n + 1) :=
  ilog2Aux_window 128 n h1 h2

lemma rne_le (a b : Nat) (hb : 0 < b) : 2 * rne a b * b ≤ 2 * a + b := by
  have hdm := Nat.div_add_mod a b
  have hlt : a % b < b := Nat.mod_lt a hb
  have key : 2 * (a / b) * b + 2 * (a % b) = 2 * a := by
    have h : 2 * (a / b) * b + 2 * (a % b) = 2 * (b * (a / b) + a % b) := by ring
    rw [h, hdm]
  have key3 : 2 * (a / b + 1) * b = 2 * (a / b) * b + 2 * b := by ring
  unfold rne
  by_cases h1 : 2 * (a % b) < b
  · rw [if_pos h1]
    omega
  · rw [if_neg h1]
    by_cases h2 : b < 2 * (a % b)
    · rw [if_pos h2]
      omega
    · rw [if_neg h2]
      by_cases h3 : a / b % 2 = 0
      · rw [if_pos h3]
        omega
      · rw [if_neg h3]
        omega

lemma rne_ge (a b : Nat) (hb : 0 < b) : 2 * a ≤ 2 * rne a b * b + b := by
  have hdm := Nat.div_add_mod a b
  have hlt : a % b < b := Nat.mod_lt a hb
  have key : 2 * (a / b) * b + 2 * (a % b) = 2 * a := by
    have h : 2 * (a / b) * b + 2 * (a % b) = 2 * (b * (a / b) + a % b) := by ring
    rw [h, hdm]
  have key3 : 2 * (a / b + 1) * b = 2 * (a / b) * b + 2 * b := by ring
  unfold rne
  by_cases h1 : 2 * (a % b) < b
  · rw [if_pos h1]
    omega
  · rw [if_neg h1]
    by_cases h2 : b < 2 * (a % b)
    · rw [if_pos h2]
      omega
    · rw [if_neg h2]
      by_cases h3 : a / b % 2 = 0
      · rw [if_pos h3]
        omega
      · rw [if_neg h3]
        omega

lemma sandwich_core (L p ex m1 k m2 : Nat)
    (hp : 1 ≤ p) (hp2 : p < 2 ^ 31) (hex1 : 1 ≤ ex)
    (hm1a : 1000 * m1 ≤ L * 2 ^ (52 + ex) + 500)
    (hm1b : L * 2 ^ (52 + ex) ≤ 1000 * m1 + 500)
    (h2k : 2 ^ k ≤ 2 * p)
    (hm2a : 2 * m2 * 2 ^ k ≤ 2 * (m1 * p) + 2 ^ k)
    (hm2b : 2 * (m1 * p) ≤ 2 * m2 * 2 ^ k + 2 ^ k) :
    1000 * (m2 * 2 ^ k / 2 ^ (52 + ex)) ≤ L * p ∧
    L * p < 1000 * (m2 * 2 ^ k / 2 ^ (52 + ex) + 2) ∧
    (¬ 1000 ∣ L * p → L * p < 1000 * (m2 * 2 ^ k / 2 ^ (52 + ex) + 1)) := by
  have hEpos : 0 < 2 ^ (52 + ex) := Nat.pos_pow_of_pos _ (by norm_num)
  have hE53 : 2 ^ 53 ≤ 2 ^ (52 + ex) := Nat.pow_le_pow_right (by norm_num) (by omega)
  have hpE : 1500 * p < 2 ^ (52 + ex) := by
    have h53 : (2:Nat) ^ 53 = 9007199254740992 := by norm_num
    have h31 : (2:Nat) ^ 31 = 2147483648 := by norm_num
    omega
  have hdm := Nat.div_add_mod (m2 * 2 ^ k) (2 ^ (52 + ex))
  have hmod : m2 * 2 ^ k % 2 ^ (52 + ex) < 2 ^ (52 + ex) :=
    Nat.mod_lt _ hEpos
  have f1 : 1000 * m1 * p ≤ L * 2 ^ (52 + ex) * p + 500 * p := by
    have h := Nat.mul_le_mul_right p hm1a
    nlinarith [h]
  have f2 : L * 2 ^ (52 + ex) * p ≤ 1000 * m1 * p + 500 * p := by
    have h := Nat.mul_le_mul_right p hm1b
    nlinarith [h]
  have hu : 1000 * (m2 * 2 ^ k) ≤ L * p * 2 ^ (52 + ex) + 1500 * p := by
    nlinarith [f1, hm2a, h2k]
  have hl : L * p * 2 ^ (52 + ex) ≤ 1000 * (m2 * 2 ^ k) + 1500 * p := by
    nlinarith [f2, hm2b, h2k]
  refine ⟨?_, ?_, ?_⟩
  · by_contra hcon
    push_neg at hcon
    have hcon' : L * p + 1 ≤ 1000 * (m2 * 2 ^ k / 2 ^ (52 + ex)) := by omega
    have hstep := Nat.mul_le_mul_right (2 ^ (52 + ex)) hcon'
    have hstep2 : L * p * 2 ^ (52 + ex) + 2 ^ (52 + ex) ≤
        1000 * (2 ^ (52 + ex) * (m2 * 2 ^ k / 2 ^ (52 + ex))) := by linarith [hstep]
    omega
  · by_contra hcon
    push_neg at hcon
    have hcon' : 1000 * (m2 * 2 ^ k / 2 ^ (52 + ex)) + 2000 ≤ L * p := by omega
    have hstep := Nat.mul_le_mul_right (2 ^ (52 + ex)) hcon'
    have hstep2 : 1000 * (2 ^ (52 + ex) * (m2 * 2 ^ k / 2 ^ (52 + ex))) +
        2000 * 2 ^ (52 + ex) ≤ L * p * 2 ^ (52 + ex) := by linarith [hstep]
    omega
  · intro hdvd
    by_contra hcon
    push_neg at hcon
    rcases Nat.lt_or_ge (1000 * (m2 * 2 ^ k / 2 ^ (52 + ex)) + 1000) (L * p) with hgt | hge
    · have hcon' : 1000 * (m2 * 2 ^ k / 2 ^ (52 + ex)) + 1001 ≤ L * p := by omega
      have hstep := Nat.mul_le_mul_right (2 ^ (52 + ex)) hcon'
      have hstep2 : 1000 * (2 ^ (52 + ex) * (m2 * 2 ^ k / 2 ^ (52 + ex))) +
          1001 * 2 ^ (52 + ex) ≤ L * p * 2 ^ (52 + ex) := by linarith [hstep]
      omega
    · have heq : L * p = 1000 * (m2 * 2 ^ k / 2 ^ (52 + ex) + 1) := by omega
      exact hdvd ⟨m2 * 2 ^ k / 2 ^ (52 + ex) + 1, heq⟩

lemma flExp_window (L : Nat) (hL1 : 1 ≤ L) (hL2 : L ≤ 999) :
    1 ≤ flExp L ∧ L * 2 ^ flExp L < 2000 := by
  have hv1 : 1 ≤ L * 1024 / 1000 := by omega
  have hvlt : L * 1024 / 1000 < 1024 := by omega
  have hvlt128 : L * 1024 / 1000 < 2 ^ 128 := by
    have h128 : (1024:Nat) ≤ 2 ^ 128 := by norm_num
    omega
  obtain ⟨hw1, hw2⟩ := ilog2_window (L * 1024 / 1000) hv1 hvlt128
  have hw9 : ilog2 (L * 1024 / 1000) ≤ 9 := by
    by_contra hcon
    push_neg at hcon
    have hmono : (2:Nat) ^ 10 ≤ 2 ^ ilog2 (L * 1024 / 1000) :=
      Nat.pow_le_pow_right (by norm_num) hcon
    have h10 : (2:Nat) ^ 10 = 1024 := by norm_num
    omega
  have hexw : flExp L = 10 - ilog2 (L * 1024 / 1000) := rfl
  refine ⟨by omega, ?_⟩
  -- upper window: L * 1024 < 2^(w+1) * 1000, then multiply by 2^(10-w)
  have hup : L * 1024 < 2 ^ (ilog2 (L * 1024 / 1000) + 1) * 1000 := by
    have := (Nat.div_lt_iff_lt_mul (by norm_num : 0 < 1000)).mp hw2
    omega
  have hkey : L * 1024 * 2 ^ flExp L < 2 ^ (ilog2 (L * 1024 / 1000) + 1) * 1000 * 2 ^ flExp L :=
    Nat.mul_lt_mul_of_lt_of_le hup (le_refl _) (Nat.pos_pow_of_pos _ (by norm_num))
  have hcollapse : 2 ^ (ilog2 (L * 1024 / 1000) + 1) * 1000 * 2 ^ flExp L = 2048000 := by
    have hsum : ilog2 (L * 1024 / 1000) + 1 + flExp L = 11 := by omega
    calc 2 ^ (ilog2 (L * 1024 / 1000) + 1) * 1000 * 2 ^ flExp L
        = 2 ^ (ilog2 (L * 1024 / 1000) + 1 + flExp L) * 1000 := by
          rw [pow_add]
          ring
      _ = 2 ^ 11 * 1000 := by rw [hsum]
      _ = 2048000 := by norm_num
  have hfin : L * 2 ^ flExp L * 1024 < 2000 * 1024 := by
    have e : L * 1024 * 2 ^ flExp L = L * 2 ^ flExp L * 1024 := by ring
    omega
  exact Nat.lt_of_mul_lt_mul_right hfin

lemma dblTrunc_sandwich (L p : Nat) (hL1 : 1 ≤ L) (hL2 : L ≤ 999)
    (hp : 1 ≤ p) (hp2 : p < 2 ^ 31) :
    1000 * dblTrunc L p ≤ L * p ∧ L * p < 1000 * (dblTrunc L p + 2) ∧
    (¬ 1000 ∣ L * p → L * p < 1000 * (dblTrunc L p + 1)) := by
  obtain ⟨hex1, hLex⟩ := flExp_window L hL1 hL2
  have hr1 := rne_le (L * 2 ^ (52 + flExp L)) 1000 (by norm_num)
  have hr2 := rne_ge (L * 2 ^ (52 + flExp L)) 1000 (by norm_num)
  have hm1a : 1000 * flM1 L ≤ L * 2 ^ (52 + flExp L) + 500 := by
    unfold flM1
    omega
  have hm1b : L * 2 ^ (52 + flExp L) ≤ 1000 * flM1 L + 500 := by
    unfold flM1
    omega
  have hsplit : (2:Nat) ^ (52 + flExp L) = 2 ^ 52 * 2 ^ flExp L := pow_add 2 52 (flExp L)
  have haub : L * 2 ^ (52 + flExp L) < 1000 * 2 ^ 53 := by
    have e1 : L * 2 ^ (52 + flExp L) = L * 2 ^ flExp L * 2 ^ 52 := by
      rw [hsplit]
      ring
    have e2 : (1000:Nat) * 2 ^ 53 = 2000 * 2 ^ 52 := by norm_num
    have h3 : L * 2 ^ flExp L * 2 ^ 52 < 2000 * 2 ^ 52 :=
      Nat.mul_lt_mul_of_lt_of_le hLex (le_refl _) (by positivity)
    omega
  have hm1ub : flM1 L ≤ 2 ^ 53 := by
    have h53 : (0:Nat) < 2 ^ 53 := by positivity
    omega
  have halb : 2 ^ 53 ≤ L * 2 ^ (52 + flExp L) := by
    have h1 : (2:Nat) ^ 53 ≤ 2 ^ (52 + flExp L) :=
      Nat.pow_le_pow_right (by norm_num) (by omega)
    have h2 : 2 ^ (52 + flExp L) ≤ L * 2 ^ (52 + flExp L) :=
      Nat.le_mul_of_pos_left _ (by omega)
    omega
  have hm1pos : 1 ≤ flM1 L := by
    have h53 : (2:Nat) ^ 53 = 9007199254740992 := by norm_num
    omega
  have hNlt : flM1 L * p < 2 ^ 128 := by
    have h1 : flM1 L * p ≤ 2 ^ 53 * p := Nat.mul_le_mul_right p hm1ub
    have h2 : (2:Nat) ^ 53 * p < 2 ^ 53 * 2 ^ 31 := by
      have : (0:Nat) < 2 ^ 53 := by positivity
      exact Nat.mul_lt_mul_of_le_of_lt (le_refl _) hp2 this
    have h3 : (2:Nat) ^ 53 * 2 ^ 31 = 2 ^ 84 := by
      rw [← pow_add]
    have h4 : (2:Nat) ^ 84 < 2 ^ 128 := Nat.pow_lt_pow_right (by norm_num) (by norm_num)
    omega
  have hNpos : 1 ≤ flM1 L * p :=
    Nat.one_le_iff_ne_zero.mpr (Nat.mul_ne_zero (by omega) (by omega))
  obtain ⟨hNw1, hNw2⟩ := ilog2_window (flM1 L * p) hNpos hNlt
  have h2k : 2 ^ flK L p ≤ 2 * p := by
    by_cases hs : ilog2 (flM1 L * p) ≤ 52
    · have hk0 : flK L p = 0 := by
        unfold flK
        omega
      rw [hk0]
      omega
    · push_neg at hs
      have hks : flK L p + 52 = ilog2 (flM1 L * p) := by
        unfold flK
        omega
      have h1 : 2 ^ flK L p * 2 ^ 52 ≤ 2 * p * 2 ^ 52 := by
        have c1 : (2:Nat) ^ flK L p * 2 ^ 52 = 2 ^ (flK L p + 52) := (pow_add 2 _ _).symm
        have c2 : (2:Nat) ^ (flK L p + 52) = 2 ^ ilog2 (flM1 L * p) := by rw [hks]
        have c3 : flM1 L * p ≤ 2 ^ 53 * p := Nat.mul_le_mul_right p hm1ub
        have c4 : (2:Nat) ^ 53 * p = 2 * p * 2 ^ 52 := by
          have : (2:Nat) ^ 53 = 2 * 2 ^ 52 := by norm_num
          rw [this]
          ring
        omega
      exact Nat.le_of_mul_le_mul_right h1 (by positivity)
  have hr3 := rne_le (flM1 L * p) (2 ^ flK L p) (by positivity)
  have hr4 := rne_ge (flM1 L * p) (2 ^ flK L p) (by positivity)
  have hcore := sandwich_core L p (flExp L) (flM1 L) (flK L p) (flM2 L p)
    hp hp2 hex1 hm1a hm1b h2k (by unfold flM2; exact hr3) (by unfold flM2; exact hr4)
  exact hcore

lemma dblTrunc_mono (L₁ L₂ p : Nat) (hL1 : 1 ≤ L₁) (h12 : L₁ ≤ L₂) (hL2 : L₂ ≤ 999)
    (hp : 1 ≤ p) (hp2 : p < 2 ^ 31) : dblTrunc L₁ p ≤ dblTrunc L₂ p := by
  rcases Nat.eq_or_lt_of_le h12 with rfl | hlt
  · exact le_refl _
  · obtain ⟨a1, a2, a3⟩ := dblTrunc_sandwich L₁ p hL1 (by omega) hp hp2
    obtain ⟨b1, b2, b3⟩ := dblTrunc_sandwich L₂ p (by omega) hL2 hp hp2
    by_contra hcon
    push_neg at hcon
    have hLp : L₁ * p < L₂ * p := by
      have := Nat.mul_le_mul_right p (show L₁ + 1 ≤ L₂ by omega)
      nlinarith [this]
    by_cases hdvd : 1000 ∣ L₂ * p
    · obtain ⟨M, hM⟩ := hdvd
      omega
    · have hb3 := b3 hdvd
      omega

/-- C1 (amended): `setLevel` on a registered pin with half-period estimate `p`
succeeds for every command `c` (out-of-range commands are clamped, never
rejected) and stores, with `c' = 1000 - c` for a leading-edge channel and
`c' = c` for a trailing-edge one: `2p` when `c' ≥ 1000`, `0` when `c' ≤ 0`,
and otherwise the binary64 product `c'/1000 × p` truncated toward zero — which
is either the exact truncation `⌊c'·p/1000⌋` or, only when `c'·p` is an exact
multiple of 1000, one below it: `1000·delay ≤ c'·p < 1000·(delay + 2)`, and
`c'·p < 1000·(delay + 1)` whenever `1000 ∤ c'·p`. Not the nearest integer, as
the claim states. -/
theorem c1_set_level_clamps_and_truncates (pre : List dim_t) (d : dim_t)
    (post : List dim_t) (c p : Int) (hp : 0 ≤ p) (hw : 2 * p < 2 ^ 31)
    (hpre : ∀ x ∈ pre, x.pin ≠ d.pin) :
    dimmer_set_level d.pin c p (pre ++ d :: post) =
      some (pre ++ set_level_ch c p d :: post) ∧
    ((if d.mode = DIM_MODE_LEADING_EDGE then 1000 - c else c) ≥ 1000 →
      (set_level_ch c p d).level = 2 * p) ∧
    ((if d.mode = DIM_MODE_LEADING_EDGE then 1000 - c else c) ≤ 0 →
      (set_level_ch c p d).level = 0) ∧
    (0 < (if d.mode = DIM_MODE_LEADING_EDGE then 1000 - c else c) →
      (if d.mode = DIM_MODE_LEADING_EDGE then 1000 - c else c) < 1000 →
      1000 * (set_level_ch c p d).level ≤
        (if d.mode = DIM_MODE_LEADING_EDGE then 1000 - c else c) * p ∧
      (if d.mode = DIM_MODE_LEADING_EDGE then 1000 - c else c) * p <
        1000 * ((set_level_ch c p d).level + 2) ∧
      (¬ (1000 : Int) ∣ (if d.mode = DIM_MODE_LEADING_EDGE then 1000 - c else c) * p →
        (if d.mode = DIM_MODE_LEADING_EDGE then 1000 - c else c) * p <
          1000 * ((set_level_ch c p d).level + 1))) := by
  refine ⟨dimmer_set_level_first_match pre d post c p hpre, ?_, ?_, ?_⟩
  · intro h
    have h32 : toInt32 (p * 2) = p * 2 := toInt32_eq_self _ (by omega) (by omega)
    simp only [set_level_ch, if_pos h, h32]
    ring
  · intro h
    have hn : ¬ (if d.mode = DIM_MODE_LEADING_EDGE then 1000 - c else c) ≥ 1000 := by
      omega
    simp only [set_level_ch, if_neg hn, if_pos h]
  · intro h0 h1
    have hn : ¬ (if d.mode = DIM_MODE_LEADING_EDGE then 1000 - c else c) ≥ 1000 := by
      omega
    have hn0 : ¬ (if d.mode = DIM_MODE_LEADING_EDGE then 1000 - c else c) ≤ 0 := by
      omega
    simp only [set_level_ch, if_neg hn, if_neg hn0]
    rcases eq_or_lt_of_le hp with hp0 | hppos
    · rw [← hp0]
      refine ⟨by simp, by simp, ?_⟩
      intro hdvd
      exact absurd (by simp) hdvd
    · have hsign : Int.sign p = 1 := Int.sign_eq_one_iff_pos.mpr hppos
      rw [hsign, one_mul]
      have hcL : ((if d.mode = DIM_MODE_LEADING_EDGE then 1000 - c else c) : Int) =
          ((if d.mode = DIM_MODE_LEADING_EDGE then 1000 - c else c).toNat : Int) := by
        omega
      have hpP : p = (p.natAbs : Int) := by omega
      have h31 : (2:Int) ^ 31 = 2147483648 := by norm_num
      have h31n : (2:Nat) ^ 31 = 2147483648 := by norm_num
      obtain ⟨s1, s2, s3⟩ := dblTrunc_sandwich
        (if d.mode = DIM_MODE_LEADING_EDGE then 1000 - c else c).toNat p.natAbs
        (by omega) (by omega) (by omega) (by omega)
      refine ⟨?_, ?_, ?_⟩
      · rw [hcL, hpP]
        exact_mod_cast s1
      · rw [hcL, hpP]
        exact_mod_cast s2
      · intro hdvd
        have hdvdn : ¬ (1000:Nat) ∣
            (if d.mode = DIM_MODE_LEADING_EDGE then 1000 - c else c).toNat * p.natAbs := by
          intro hd
          apply hdvd
          rw [hcL, hpP]
          exact_mod_cast hd
        rw [hcL, hpP]
        exact_mod_cast s3 hdvdn

/-- C1 counterexample: for a trailing-edge channel, `setLevel` with command 2
and half-period 1999 stores `switchDelay = 3`, but the nearest integer to
`2/1000 × 1999 = 3.998` is 4 (scaled by 1000: the distance to 4 is 2, the
distance to 3 is 998), so the stored value is the truncation, not the rounding
the claim states. -/
theorem c1_counterexample :
    (set_level_ch 2 1999 ⟨5, DIM_MODE_TRAILING_EDGE, 0, false⟩).level = 3 ∧
    (4 * 1000 - 2 * 1999 : Int) < 2 * 1999 - 3 * 1000 := by decide

/-- C1 witness: the amended theorem applied on a one-channel registry for each
branch: command 2 (binary64 branch, `p = 1999`, stores 3 with
`3000 ≤ 3998 < 4000`), command 1200 (clamps to `2p`), command −5 (clamps
to 0). -/
theorem c1_witness :
    dimmer_set_level 5 2 1999 [⟨5, DIM_MODE_TRAILING_EDGE, 0, false⟩] =
      some [set_level_ch 2 1999 ⟨5, DIM_MODE_TRAILING_EDGE, 0, false⟩] ∧
    (set_level_ch 1200 10000 ⟨5, DIM_MODE_TRAILING_EDGE, 0, false⟩).level = 2 * 10000 ∧
    (set_level_ch (-5) 10000 ⟨5, DIM_MODE_TRAILING_EDGE, 0, false⟩).level = 0 ∧
    1000 * (set_level_ch 2 1999 ⟨5, DIM_MODE_TRAILING_EDGE, 0, false⟩).level ≤ 2 * 1999 ∧
    2 * 1999 <
      1000 * ((set_level_ch 2 1999 ⟨5, DIM_MODE_TRAILING_EDGE, 0, false⟩).level + 2) ∧
    2 * 1999 <
      1000 * ((set_level_ch 2 1999 ⟨5, DIM_MODE_TRAILING_EDGE, 0, false⟩).level + 1) :=
  ⟨(c1_set_level_clamps_and_truncates [] ⟨5, DIM_MODE_TRAILING_EDGE, 0, false⟩ [] 2 1999
      (by decide) (by decide) (by simp)).1,
   (c1_set_level_clamps_and_truncates [] ⟨5, DIM_MODE_TRAILING_EDGE, 0, false⟩ [] 1200 10000
      (by decide) (by decide) (by simp)).2.1 (by decide),
   (c1_set_level_clamps_and_truncates [] ⟨5, DIM_MODE_TRAILING_EDGE, 0, false⟩ [] (-5) 10000
      (by decide) (by decide) (by simp)).2.2.1 (by decide),
   ((c1_set_level_clamps_and_truncates [] ⟨5, DIM_MODE_TRAILING_EDGE, 0, false⟩ [] 2 1999
      (by decide) (by decide) (by simp)).2.2.2 (by decide) (by decide)).1,
   ((c1_set_level_clamps_and_truncates [] ⟨5, DIM_MODE_TRAILING_EDGE, 0, false⟩ [] 2 1999
      (by decide) (by decide) (by simp)).2.2.2 (by decide) (by decide)).2.1,
   ((c1_set_level_clamps_and_truncates [] ⟨5, DIM_MODE_TRAILING_EDGE, 0, false⟩ [] 2 1999
      (by decide) (by decide) (by simp)).2.2.2 (by decide) (by decide)).2.2 (by decide)⟩

/-- C8 counterexample: for a trailing-edge channel with `p = 10000`,
`setLevel` with command 200 stores `switchDelay = 2000 = 200/1000 × 10000`,
whereas the claim's formula `(1000-200)/1000 × 10000 = 8000` is off by 6000 —
far beyond rounding. -/
theorem c8_counterexample :
    (set_level_ch 200 10000 ⟨5, DIM_MODE_TRAILING_EDGE, 0, false⟩).level = 2000 ∧
    ((1000 - 200) * 10000 / 1000 : Int) = 8000 ∧
    8000 - (set_level_ch 200 10000 ⟨5, DIM_MODE_TRAILING_EDGE, 0, false⟩).level > 1 := by
  decide

/-- C8 (amended): for a trailing-edge channel and fixed half-period
`0 ≤ p < 2^30`, the stored `switchDelay` is a non-decreasing function of the
command on `[1, 999]`, and equals `c/1000 × p` within rounding: it is the
binary64 product truncated toward zero, which lies within one unit below the
exact truncation (`1000·delay ≤ c·p < 1000·(delay + 2)`, and
`c·p < 1000·(delay + 1)` whenever `1000 ∤ c·p`) — the claim's
`(1000-c)/1000 × p` is the leading-edge formula, not the trailing-edge one. -/
theorem c8_trailing_monotone (d : dim_t) (hm : d.mode = DIM_MODE_TRAILING_EDGE)
    (p c₁ c₂ : Int) (hp : 0 ≤ p) (hw : 2 * p < 2 ^ 31)
    (h1 : 1 ≤ c₁) (h12 : c₁ ≤ c₂) (h2 : c₂ ≤ 999) :
    (set_level_ch c₁ p d).level ≤ (set_level_ch c₂ p d).level ∧
    1000 * (set_level_ch c₁ p d).level ≤ c₁ * p ∧
    c₁ * p < 1000 * ((set_level_ch c₁ p d).level + 2) ∧
    (¬ (1000 : Int) ∣ c₁ * p →
      c₁ * p < 1000 * ((set_level_ch c₁ p d).level + 1)) := by
  have hmode : ¬ d.mode = DIM_MODE_LEADING_EDGE := by
    rw [hm]; decide
  have hred : ∀ c : Int, 1 ≤ c → c ≤ 999 →
      (set_level_ch c p d).level = Int.sign p * (dblTrunc c.toNat p.natAbs : Int) := by
    intro c hc1 hc2
    have ha : ¬ c ≥ 1000 := by omega
    have hb : ¬ c ≤ 0 := by omega
    simp [set_level_ch, hmode, ha, hb]
  rw [hred c₁ h1 (by omega), hred c₂ (by omega) h2]
  rcases eq_or_lt_of_le hp with hp0 | hppos
  · rw [← hp0]
    refine ⟨by simp, by simp, by simp, ?_⟩
    intro hdvd
    exact absurd (by simp) hdvd
  · have hsign : Int.sign p = 1 := Int.sign_eq_one_iff_pos.mpr hppos
    rw [hsign, one_mul, one_mul]
    have hpP : p = (p.natAbs : Int) := by omega
    have hc1L : c₁ = (c₁.toNat : Int) := by omega
    have h31 : (2:Int) ^ 31 = 2147483648 := by norm_num
    have h31n : (2:Nat) ^ 31 = 2147483648 := by norm_num
    obtain ⟨s1, s2, s3⟩ := dblTrunc_sandwich c₁.toNat p.natAbs
      (by omega) (by omega) (by omega) (by omega)
    refine ⟨?_, ?_, ?_, ?_⟩
    · exact_mod_cast dblTrunc_mono c₁.toNat c₂.toNat p.natAbs
        (by omega) (by omega) (by omega) (by omega) (by omega)
    · rw [hc1L, hpP]
      exact_mod_cast s1
    · rw [hc1L, hpP]
      exact_mod_cast s2
    · intro hdvd
      have hdvdn : ¬ (1000:Nat) ∣ c₁.toNat * p.natAbs := by
        intro hd
        apply hdvd
        rw [hc1L, hpP]
        exact_mod_cast hd
      rw [hc1L, hpP]
      exact_mod_cast s3 hdvdn

/-- C8 witness: the amended theorem applied at `p = 10000`, commands 200 and
500 on a trailing-edge channel (stored delays 2000 and 5000). -/
theorem c8_witness :
    (set_level_ch 200 10000 ⟨5, DIM_MODE_TRAILING_EDGE, 0, false⟩).level ≤
      (set_level_ch 500 10000 ⟨5, DIM_MODE_TRAILING_EDGE, 0, false⟩).level ∧
    1000 * (set_level_ch 200 10000 ⟨5, DIM_MODE_TRAILING_EDGE, 0, false⟩).level ≤
      200 * 10000 ∧
    200 * 10000 <
      1000 * ((set_level_ch 200 10000 ⟨5, DIM_MODE_TRAILING_EDGE, 0, false⟩).level + 2) ∧
    (¬ (1000 : Int) ∣ 200 * 10000 →
      200 * 10000 <
        1000 * ((set_level_ch 200 10000 ⟨5, DIM_MODE_TRAILING_EDGE, 0, false⟩).level + 1)) :=
  c8_trailing_monotone ⟨5, DIM_MODE_TRAILING_EDGE, 0, false⟩ rfl 10000 200 500
    (by decide) (by decide) (by decide) (by decide) (by decide)

/-- C2: at an accepted zero crossing (`elapsed > debounceThreshold`), each
channel in the registry is, per the C branch in `zc_isr`: driven to the "on"
level `1 - mode` and marked `switched = true` when its stored `level` is 0,
and otherwise driven to the edge-mode "off" level `mode` and marked
`switched = false`. Stated positionally: channel `i` of the resulting registry
and GPIO write `i` of the emitted write list. -/
theorem c2_zc_drives_channels (s : DimmerState) (now : Int)
    (hacc : now - s.zcTimestamp > debounceThreshold)
    (i : Nat) (d : dim_t) (hd : s.dims[i]? = some d) :
    (zc_isr now s).1.dims[i]? =
      some (if d.level = 0 then { d with switched := true }
            else { d with switched := false }) ∧
    (zc_isr now s).2[i]? =
      some (if d.level = 0 then (d.pin, 1 - d.mode) else (d.pin, d.mode)) := by
  simp only [zc_isr, if_pos hacc]
  constructor
  · simp only [List.map_map, List.getElem?_map, hd, Option.map_some]
    by_cases h0 : d.level = 0 <;> simp [zc_isr_ch, h0]
  · simp only [List.getElem?_map, hd, Option.map_some]
    by_cases h0 : d.level = 0 <;> simp [zc_isr_ch, h0]

/-- C2 witness: the theorem applied at an accepted crossing (`elapsed = 6000`)
on a registry with a `level = 0` channel (index 0) and a `level = 4000`
channel (index 1). -/
theorem c2_witness :
    ((zc_isr 6000 ⟨0, 0, 0, [⟨5, 1, 0, false⟩, ⟨6, 1, 4000, true⟩]⟩).1.dims[0]? =
        some (⟨5, 1, 0, true⟩ : dim_t) ∧
      (zc_isr 6000 ⟨0, 0, 0, [⟨5, 1, 0, false⟩, ⟨6, 1, 4000, true⟩]⟩).2[0]? =
        some ((5 : Int), (0 : Int))) ∧
    ((zc_isr 6000 ⟨0, 0, 0, [⟨5, 1, 0, false⟩, ⟨6, 1, 4000, true⟩]⟩).1.dims[1]? =
        some (⟨6, 1, 4000, false⟩ : dim_t) ∧
      (zc_isr 6000 ⟨0, 0, 0, [⟨5, 1, 0, false⟩, ⟨6, 1, 4000, true⟩]⟩).2[1]? =
        some ((6 : Int), (1 : Int))) := by
  constructor
  · have h := c2_zc_drives_channels ⟨0, 0, 0, [⟨5, 1, 0, false⟩, ⟨6, 1, 4000, true⟩]⟩
      6000 (by decide) 0 ⟨5, 1, 0, false⟩ (by decide)
    simpa using h
  · have h := c2_zc_drives_channels ⟨0, 0, 0, [⟨5, 1, 0, false⟩, ⟨6, 1, 4000, true⟩]⟩
      6000 (by decide) 1 ⟨6, 1, 4000, true⟩ (by decide)
    simpa using h

lemma dimmer_add_pairwise (pin mode p : Int) (ds : List dim_t)
    (h : ds.Pairwise (fun a b => a.pin ≠ b.pin)) :
    (dimmer_add pin mode p ds).Pairwise (fun a b => a.pin ≠ b.pin) := by
  rw [dimmer_add]
  split
  · exact h
  · next hany =>
    have hnone : ∀ d ∈ ds, d.pin ≠ pin := by
      intro d hdm
      by_contra hdp
      exact hany (List.any_eq_true.mpr ⟨d, hdm, by simp [hdp]⟩)
    rw [List.pairwise_append]
    refine ⟨h, List.pairwise_singleton _ _, ?_⟩
    intro a ha b hb
    simp only [List.mem_singleton] at hb
    subst hb
    simpa using hnone a ha

lemma addAll_pairwise (calls : List (Int × Int × Int)) (ds : List dim_t)
    (h : ds.Pairwise (fun a b => a.pin ≠ b.pin)) :
    (addAll calls ds).Pairwise (fun a b => a.pin ≠ b.pin) := by
  induction calls generalizing ds with
  | nil => exact h
  | cons a rest ih => exact ih _ (dimmer_add_pairwise _ _ _ _ h)

/-- C6: for every sequence of `add` calls starting from the empty registry,
the resulting registry has pairwise-distinct pins; and `add` on an
already-present pin is a no-op that returns the registry unchanged (hence the
existing channel's mode, level and switched state are untouched). -/
theorem c6_add_unique_and_noop (calls : List (Int × Int × Int)) :
    (addAll calls []).Pairwise (fun a b => a.pin ≠ b.pin) ∧
    ∀ pin mode p ds, (∃ d ∈ ds, d.pin = pin) → dimmer_add pin mode p ds = ds := by
  constructor
  · exact addAll_pairwise calls [] List.Pairwise.nil
  · intro pin mode p ds hex
    obtain ⟨d, hdm, hdp⟩ := hex
    have : ds.any (fun d => decide (d.pin = pin)) = true :=
      List.any_eq_true.mpr ⟨d, hdm, by simp [hdp]⟩
    simp [dimmer_add, this]

/-- C6 witness: a call sequence with a duplicate pin 5 still yields
pairwise-distinct pins, and a duplicate `add` of pin 5 returns the registry
unchanged. -/
theorem c6_witness :
    (addAll [(5, 1, 0), (5, 0, 0), (6, 1, 0)] []).Pairwise
      (fun a b => a.pin ≠ b.pin) ∧
    dimmer_add 5 0 7 [⟨5, 1, 0, false⟩] = [⟨5, 1, 0, false⟩] :=
  ⟨(c6_add_unique_and_noop [(5, 1, 0), (5, 0, 0), (6, 1, 0)]).1,
   (c6_add_unique_and_noop []).2 5 0 7 [⟨5, 1, 0, false⟩]
     ⟨⟨5, 1, 0, false⟩, by simp, rfl⟩⟩

/-- C7: `dimmer_remove(pin)` fails (Lua error, registry untouched) exactly
when no channel has that pin; and on success it deletes precisely the first
channel whose pin matches, preserving the relative order of all remaining
channels: the registry decomposes as `pre ++ d :: post` with `d.pin = pin`,
no match in `pre`, and the result is `pre ++ post`. -/
theorem c7_remove_first_match (pin : Int) (ds : List dim_t) :
    (dimmer_remove pin ds = none ↔ ∀ d ∈ ds, d.pin ≠ pin) ∧
    ∀ ds', dimmer_remove pin ds = some ds' →
      ∃ pre d post, ds = pre ++ d :: post ∧ d.pin = pin ∧
        (∀ x ∈ pre, x.pin ≠ pin) ∧ ds' = pre ++ post := by
  induction ds with
  | nil =>
    refine ⟨by simp [dimmer_remove], ?_⟩
    intro ds' h
    simp [dimmer_remove] at h
  | cons d ds ih =>
    by_cases hd : d.pin = pin
    · refine ⟨?_, ?_⟩
      · rw [dimmer_remove, if_pos hd]
        constructor
        · intro h
          cases h
        · intro hall
          exact absurd hd (hall d (by simp))
      · intro ds' h
        rw [dimmer_remove, if_pos hd] at h
        refine ⟨[], d, ds, by simp, hd, by simp, ?_⟩
        simpa using h.symm
    · refine ⟨?_, ?_⟩
      · rw [dimmer_remove, if_neg hd]
        rw [Option.map_eq_none', ih.1]
        simp [hd]
      · intro ds' h
        rw [dimmer_remove, if_neg hd] at h
        obtain ⟨t, ht, hds'⟩ := Option.map_eq_some'.mp h
        obtain ⟨pre, dd, post, hds, hdd, hpre, ht'⟩ := ih.2 t ht
        refine ⟨d :: pre, dd, post, by simp [hds], hdd, ?_, ?_⟩
        · intro x hx
          rcases List.mem_cons.mp hx with hxd | hxp
          · subst hxd
            exact hd
          · exact hpre x hxp
        · rw [← hds', ht']
          simp

/-- C7 witness: removing pin 5 from a three-channel registry yields the
decomposition with `pre = [channel 4]`, `post = [channel 6]`, and the result
preserves the order of the rest. -/
theorem c7_witness :
    ∃ pre d post,
      ([⟨4, 1, 0, false⟩, ⟨5, 1, 0, false⟩, ⟨6, 1, 0, false⟩] : List dim_t) =
        pre ++ d :: post ∧ d.pin = 5 ∧ (∀ x ∈ pre, x.pin ≠ 5) ∧
      ([⟨4, 1, 0, false⟩, ⟨6, 1, 0, false⟩] : List dim_t) = pre ++ post :=
  (c7_remove_first_match 5
      [⟨4, 1, 0, false⟩, ⟨5, 1, 0, false⟩, ⟨6, 1, 0, false⟩]).2
    [⟨4, 1, 0, false⟩, ⟨6, 1, 0, false⟩] (by decide)

lemma writesTo_append (q : Int) (a b : List (Int × Int)) :
    writesTo q (a ++ b) = writesTo q a + writesTo q b := by
  induction a with
  | nil => simp [writesTo]
  | cons w ws ih =>
    simp only [List.cons_append, writesTo, List.append_eq, ih]
    omega

lemma writesTo_flatten (q : Int) (L : List (List (Int × Int))) :
    writesTo q L.flatten = (L.map (writesTo q)).sum := by
  induction L with
  | nil => simp [writesTo]
  | cons a L ih => simp [List.flatten_cons, writesTo_append, ih]

lemma timer_isr_ch_pin (e : Int) (d : dim_t) :
    (timer_isr_ch e d).1.pin = d.pin := by
  rw [timer_isr_ch]
  split <;> rfl

lemma timer_isr_ch_of_switched (e : Int) (d : dim_t) (h : d.switched = true) :
    timer_isr_ch e d = (d, []) := by
  rw [timer_isr_ch, if_neg]
  simp [h]

lemma timer_isr_ch_writes_le (e q : Int) (d : dim_t) :
    writesTo q (timer_isr_ch e d).2 ≤ if d.pin = q then 1 else 0 := by
  by_cases hpq : d.pin = q <;> rw [timer_isr_ch] <;> split <;>
    simp [writesTo, hpq]

lemma timer_isr_ch_writes_pos (e q : Int) (d : dim_t)
    (h : 1 ≤ writesTo q (timer_isr_ch e d).2) :
    d.pin = q ∧ (timer_isr_ch e d).1.switched = true := by
  by_cases hc : d.switched = false ∧ e > d.level
  · refine ⟨?_, by simp [timer_isr_ch, hc]⟩
    by_contra hpq
    simp [timer_isr_ch, hc, writesTo, hpq] at h
  · simp [timer_isr_ch, hc, writesTo] at h

lemma timer_isr_writes_sum (now q : Int) (s : DimmerState) :
    writesTo q (timer_isr now s).2 =
      (s.dims.map
        (fun d => writesTo q (timer_isr_ch (now - s.zcTimestamp) d).2)).sum := by
  simp only [timer_isr, writesTo_flatten, List.map_map]
  rfl

lemma timer_isr_dims (now : Int) (s : DimmerState) :
    (timer_isr now s).1.dims =
      s.dims.map (fun d => (timer_isr_ch (now - s.zcTimestamp) d).1) := by
  simp [timer_isr, List.map_map, Function.comp]

lemma sum_map_le_one (q : Int) (l : List dim_t) (f : dim_t → Nat)
    (hpw : l.Pairwise (fun a b => a.pin ≠ b.pin))
    (hf : ∀ d, f d ≤ if d.pin = q then 1 else 0) :
    (l.map f).sum ≤ 1 := by
  induction l with
  | nil => simp
  | cons d l ih =>
    rcases List.pairwise_cons.mp hpw with ⟨hhead, htail⟩
    by_cases hpq : d.pin = q
    · have hsum : (l.map f).sum = 0 := by
        apply List.sum_eq_zero
        intro n hn
        obtain ⟨x, hx, hfx⟩ := List.mem_map.mp hn
        have hxq : ¬ x.pin = q := fun hxq => (hhead x hx) (by rw [hpq, hxq])
        have hfle := hf x
        rw [if_neg hxq] at hfle
        omega
      have hd := hf d
      rw [if_pos hpq] at hd
      rw [List.map_cons, List.sum_cons, hsum]
      omega
    · have hd := hf d
      rw [if_neg hpq] at hd
      rw [List.map_cons, List.sum_cons]
      have := ih htail
      omega

lemma sum_map_pos_exists (l : List dim_t) (f : dim_t → Nat)
    (h : 1 ≤ (l.map f).sum) : ∃ x ∈ l, 1 ≤ f x := by
  by_contra hc
  push_neg at hc
  have hz : (l.map f).sum = 0 := by
    apply List.sum_eq_zero
    intro n hn
    obtain ⟨x, hx, hfx⟩ := List.mem_map.mp hn
    have := hc x hx
    omega
  omega

lemma timer_step_zero (now q : Int) (s : DimmerState)
    (h : ∀ d ∈ s.dims, d.pin = q → d.switched = true) :
    writesTo q (timer_isr now s).2 = 0 ∧
    ∀ d ∈ (timer_isr now s).1.dims, d.pin = q → d.switched = true := by
  constructor
  · rw [timer_isr_writes_sum]
    apply List.sum_eq_zero
    intro n hn
    obtain ⟨x, hx, hfx⟩ := List.mem_map.mp hn
    by_cases hxq : x.pin = q
    · rw [← hfx, timer_isr_ch_of_switched _ _ (h x hx hxq)]
      simp [writesTo]
    · have hle := timer_isr_ch_writes_le (now - s.zcTimestamp) q x
      rw [if_neg hxq] at hle
      omega
  · intro d' hd' hq
    rw [timer_isr_dims] at hd'
    obtain ⟨x, hx, hfx⟩ := List.mem_map.mp hd'
    by_cases hxq : x.pin = q
    · have hsw := h x hx hxq
      rw [← hfx, timer_isr_ch_of_switched _ _ hsw]
      exact hsw
    · exfalso
      apply hxq
      rw [← timer_isr_ch_pin (now - s.zcTimestamp) x, hfx]
      exact hq

lemma timer_step_after_pos (now q : Int) (s : DimmerState)
    (hpw : s.dims.Pairwise (fun a b => a.pin ≠ b.pin))
    (h : 1 ≤ writesTo q (timer_isr now s).2) :
    ∀ d ∈ (timer_isr now s).1.dims, d.pin = q → d.switched = true := by
  rw [timer_isr_writes_sum] at h
  obtain ⟨y, hy, hfy⟩ := sum_map_pos_exists _ _ h
  obtain ⟨hyq, hysw⟩ := timer_isr_ch_writes_pos _ _ _ hfy
  intro d' hd' hq
  rw [timer_isr_dims] at hd'
  obtain ⟨x, hx, hfx⟩ := List.mem_map.mp hd'
  have hxq : x.pin = q := by
    rw [← timer_isr_ch_pin (now - s.zcTimestamp) x, hfx]
    exact hq
  by_cases hxy : x = y
  · rw [← hfx, hxy]
    exact hysw
  · exfalso
    have hsymm : Symmetric (fun a b : dim_t => a.pin ≠ b.pin) :=
      fun a b hab hba => hab hba.symm
    exact (hpw.forall hsymm hx hy hxy) (hxq.trans hyq.symm)

lemma timer_isr_pairwise (now : Int) (s : DimmerState)
    (hpw : s.dims.Pairwise (fun a b => a.pin ≠ b.pin)) :
    (timer_isr now s).1.dims.Pairwise (fun a b => a.pin ≠ b.pin) := by
  rw [timer_isr_dims, List.pairwise_map]
  exact hpw.imp (fun hab => by simpa [timer_isr_ch_pin] using hab)

lemma runTimer_writes_zero (q : Int) : ∀ (ns : List Int) (s : DimmerState),
    (∀ d ∈ s.dims, d.pin = q → d.switched = true) →
    writesTo q (runTimer ns s).2 = 0 := by
  intro ns
  induction ns with
  | nil =>
    intro s h
    simp [runTimer, writesTo]
  | cons n ns ih =>
    intro s h
    have hstep := timer_step_zero n q s h
    simp only [runTimer]
    rw [writesTo_append, hstep.1, ih _ hstep.2]

/-- C10: between accepted zero crossings (a run of scheduler iterations with no
crossing in between), the scheduler writes each pin at most once: over any
sequence of `timer_isr` iterations on a registry with pairwise-distinct pins,
the number of GPIO writes to any pin `q` is at most 1, and if every channel
with pin `q` already has `switched = true` (as after its flip, until a
crossing resets the flag) no write to `q` occurs at all. -/
theorem c10_scheduler_writes_once (q : Int) : ∀ (ns : List Int) (s : DimmerState),
    s.dims.Pairwise (fun a b => a.pin ≠ b.pin) →
    (writesTo q (runTimer ns s).2 ≤ 1 ∧
     ((∀ d ∈ s.dims, d.pin = q → d.switched = true) →
       writesTo q (runTimer ns s).2 = 0)) := by
  intro ns
  induction ns with
  | nil =>
    intro s _hpw
    exact ⟨by simp [runTimer, writesTo], fun _ => by simp [runTimer, writesTo]⟩
  | cons n ns ih =>
    intro s hpw
    refine ⟨?_, fun h => runTimer_writes_zero q (n :: ns) s h⟩
    simp only [runTimer]
    rw [writesTo_append]
    by_cases hz : writesTo q (timer_isr n s).2 = 0
    · rw [hz]
      simpa using (ih (timer_isr n s).1 (timer_isr_pairwise n s hpw)).1
    · have hpos : 1 ≤ writesTo q (timer_isr n s).2 := by omega
      have hafter := timer_step_after_pos n q s hpw hpos
      have hzero := runTimer_writes_zero q ns (timer_isr n s).1 hafter
      have hle : writesTo q (timer_isr n s).2 ≤ 1 := by
        rw [timer_isr_writes_sum]
        exact sum_map_le_one q _ _ hpw (fun d => timer_isr_ch_writes_le _ _ _)
      omega

/-- C10 witness: the theorem applied to a one-channel registry over two
scheduler iterations — at most one write when the channel starts unswitched,
and zero writes when it is already switched. -/
theorem c10_witness :
    writesTo 5 (runTimer [6000, 7000] ⟨0, 10000, 0, [⟨5, 1, 5000, false⟩]⟩).2 ≤ 1 ∧
    writesTo 5 (runTimer [6000, 7000] ⟨0, 10000, 0, [⟨5, 1, 5000, true⟩]⟩).2 = 0 :=
  ⟨(c10_scheduler_writes_once 5 [6000, 7000] ⟨0, 10000, 0, [⟨5, 1, 5000, false⟩]⟩
      (by simp)).1,
   (c10_scheduler_writes_once 5 [6000, 7000] ⟨0, 10000, 0, [⟨5, 1, 5000, true⟩]⟩
      (by simp)).2 (by decide)⟩
